import Mathlib

/-!
Verification of the training-loop harness `src/common/trainer.py`
(class `BaseTrainer`) of the FullSubNet repository.

The Python code is shallowly embedded: scores (Python floats, compared
with `>=` / `<=` against a running extremum initialised to `±np.inf`)
are modelled as extended rationals `XR`; the checkpoint directory is a
map from file names (strings) to checkpoint records; the training loop
is a fold over the epoch range producing a trace of events; the
`assert` statements and Python `KeyError` / `ZeroDivisionError` are
modelled with `Except`.
-/

namespace Trainer

/-- Extended rationals: the value space of `self.best_score`, which is
initialised to `-np.inf` or `np.inf` and afterwards always holds a real
metric score (modelled as a rational). -/
inductive XR where
  | negInf : XR
  | fin : ℚ → XR
  | posInf : XR
deriving DecidableEq, Repr

/-- Boolean comparison `a <= b` on `XR`, matching IEEE comparison of a
float against `±inf` (no NaNs are produced by this code path). -/
def XR.leB : XR → XR → Bool
  | .negInf, _ => true
  | _, .posInf => true
  | .fin a, .fin b => decide (a ≤ b)
  | .posInf, .negInf => false
  | .posInf, .fin _ => false
  | .fin _, .negInf => false

/-- Embedding of `BaseTrainer._is_best_epoch` (trainer.py lines 190-201).
Input: the fresh `score` and the current `self.best_score`; output: the
returned boolean and the value of `self.best_score` after the call.
```
if save_max_metric_score and score >= self.best_score:
    self.best_score = score; return True
elif not save_max_metric_score and score <= self.best_score:
    self.best_score = score; return True
else:
    return False
``` -/
def is_best_epoch (score : ℚ) (best_score : XR) (save_max_metric_score : Bool) :
    Bool × XR :=
  if save_max_metric_score && XR.leB best_score (.fin score) then
    (true, .fin score)
  else if !save_max_metric_score && XR.leB (.fin score) best_score then
    (true, .fin score)
  else
    (false, best_score)

/-- Initial value of `self.best_score` set in `BaseTrainer.__init__`
(line 74): `-np.inf if self.save_max_metric_score else np.inf`. -/
def initBestScore (save_max_metric_score : Bool) : XR :=
  if save_max_metric_score then .negInf else .posInf

/-- One `_is_best_epoch` call viewed as a state update of `self.best_score`. -/
def bestStep (save_max_metric_score : Bool) (b : XR) (s : ℚ) : XR :=
  (is_best_epoch s b save_max_metric_score).2

/-- The successive values taken by `self.best_score` across a sequence of
`_is_best_epoch` calls, starting from the `__init__` value. -/
def bestTrace (save_max_metric_score : Bool) (scores : List ℚ) : List XR :=
  scores.scanl (bestStep save_max_metric_score) (initBestScore save_max_metric_score)

/-- The character for a decimal digit, `'0'`-`'9'`. -/
def digitChar (d : Nat) : Char := Char.ofNat (48 + d % 10)

/-- Decimal rendering of a natural number as a character list: the
embedding of Python `str(epoch)` for a non-negative integer (most
significant digit first, no leading zeros, `0 ↦ "0"`). -/
def decRepr (n : Nat) : List Char :=
  if n = 0 then ['0'] else ((Nat.digits 10 n).reverse).map digitChar

/-- Embedding of Python `str.zfill(width)` on a digit string (no sign
handling: epochs are non-negative): pad on the left with `'0'` up to
`width` characters. -/
def zfillChars (width : Nat) (l : List Char) : List Char :=
  List.replicate (width - l.length) '0' ++ l

/-- The per-epoch checkpoint file name written by `_save_checkpoint`
(line 178): `f"model_{str(epoch).zfill(4)}.tar"`. -/
def perEpochName (epoch : Nat) : String :=
  ⟨"model_".data ++ zfillChars 4 (decRepr epoch) ++ ".tar".data⟩

/-- Proof helper: drop the leading `'0'` characters of a digit string
(normal form used to reason about `zfill` collisions). -/
def stripZeros (l : List Char) : List Char :=
  List.dropWhile (fun c => c == '0') l

/-- A checkpoint record as assembled by `_save_checkpoint` (lines 159-168):
epoch number, best score so far, and opaque optimizer / model state blobs
(their types are parameters, as the blobs are produced by the external
tensor runtime). -/
structure Checkpoint (ο μ : Type) where
  epoch : Nat
  best_score : XR
  optimizer : ο
  model : μ
deriving Repr

/-- The contents of the `<save_dir>/checkpoints` directory: the record
last written under each file name, if any. -/
def FileStore (ο μ : Type) := String → Option (Checkpoint ο μ)

/-- The in-memory trainer state relevant to checkpoint persistence. -/
structure TrainerState (ο μ : Type) where
  start_epoch : Nat
  best_score : XR
  optimizer : ο
  model : μ
deriving Repr

/-- Embedding of `BaseTrainer._save_checkpoint` (lines 144-188): build the
`state_dict` record and write it to `latest_model.tar`, to
`model_{str(epoch).zfill(4)}.tar`, and — when `is_best_epoch` — to
`best_model.tar`, each write overwriting whatever the store held under
that exact name. -/
def save_checkpoint {ο μ : Type} (s : TrainerState ο μ) (store : FileStore ο μ)
    (epoch : Nat) (is_best_epoch : Bool) : FileStore ο μ :=
  let state_dict : Checkpoint ο μ :=
    { epoch := epoch, best_score := s.best_score,
      optimizer := s.optimizer, model := s.model }
  let store1 : FileStore ο μ :=
    fun name => if name = "latest_model.tar" then some state_dict else store name
  let store2 : FileStore ο μ :=
    fun name => if name = perEpochName epoch then some state_dict else store1 name
  if is_best_epoch then
    fun name => if name = "best_model.tar" then some state_dict else store2 name
  else store2

/-- Embedding of `BaseTrainer._resume_checkpoint` (lines 121-142): assert
that `latest_model.tar` exists (model: `Except.error` on the failed
assertion), then load it and overwrite `start_epoch` with
`checkpoint["epoch"] + 1`, `best_score` with `checkpoint["best_score"]`,
and the optimizer and model states with the stored blobs. -/
def resume_checkpoint {ο μ : Type} (s : TrainerState ο μ) (store : FileStore ο μ) :
    Except String (TrainerState ο μ) :=
  match store "latest_model.tar" with
  | none => .error "latest_model.tar does not exist, can not load latest checkpoint."
  | some checkpoint =>
      .ok { s with
            start_epoch := checkpoint.epoch + 1,
            best_score := checkpoint.best_score,
            optimizer := checkpoint.optimizer,
            model := checkpoint.model }

/-- Python `%` on non-negative integers as a fallible operation:
`a % 0` raises `ZeroDivisionError`. -/
def pymod (a b : Nat) : Option Nat :=
  if b = 0 then none else some (a % b)

/-- The guard of line 311,
`save_checkpoint_interval != 0 and (epoch % save_checkpoint_interval == 0)`,
with Python's short-circuit `and`: the modulo is evaluated only when the
interval is non-zero. -/
def shouldSavePeriodic (save_checkpoint_interval epoch : Nat) : Option Bool :=
  if save_checkpoint_interval = 0 then some false
  else (pymod epoch save_checkpoint_interval).map (fun r => r == 0)

/-- The configuration fields of `config["trainer"]` that drive `train()`. -/
structure TrainCfg where
  epochs : Nat
  save_checkpoint_interval : Nat
  validation_interval : Nat
  save_max_metric_score : Bool
deriving Repr

/-- The externally observable actions of one run of `train()`:
`_train_epoch(epoch)`, the periodic `_save_checkpoint(epoch)`,
`_validation_epoch(epoch)`, and the best-model
`_save_checkpoint(epoch, is_best_epoch=True)`. -/
inductive Event where
  | trainEpoch (e : Nat)
  | savePeriodic (e : Nat)
  | validate (e : Nat)
  | saveBest (e : Nat)
deriving DecidableEq, Repr

/-- The epoch an event is tagged with. -/
def Event.epoch : Event → Nat
  | .trainEpoch e => e
  | .savePeriodic e => e
  | .validate e => e
  | .saveBest e => e

/-- One iteration of the `for epoch in range(...)` body of `train()`
(lines 303-323). `valScore` abstracts `_validation_epoch` (a deterministic
score per epoch, produced by the subclass); the returned pair is the new
`best_score` and the events of this iteration; `none` models an uncaught
`ZeroDivisionError`. -/
def trainStep (cfg : TrainCfg) (valScore : Nat → ℚ) (epoch : Nat) (best : XR) :
    Option (XR × List Event) := do
  let doSave ← shouldSavePeriodic cfg.save_checkpoint_interval epoch
  let evSave := if doSave then [Event.savePeriodic epoch] else []
  let r ← pymod epoch cfg.validation_interval
  if r == 0 then
    let res := is_best_epoch (valScore epoch) best cfg.save_max_metric_score
    some (res.2, [Event.trainEpoch epoch] ++ evSave ++ [Event.validate epoch] ++
      (if res.1 then [Event.saveBest epoch] else []))
  else
    some (best, [Event.trainEpoch epoch] ++ evSave)

/-- The loop of `train()` over a list of epoch numbers, threading
`self.best_score` and accumulating the event trace. -/
def trainFrom (cfg : TrainCfg) (valScore : Nat → ℚ) :
    XR → List Nat → Option (XR × List Event)
  | best, [] => some (best, [])
  | best, e :: rest => do
      let (best', evs) ← trainStep cfg valScore e best
      let (bestF, evsRest) ← trainFrom cfg valScore best' rest
      some (bestF, evs ++ evsRest)

/-- The epoch numbers visited by `train()`:
`range(self.start_epoch, self.epochs + 1)`. -/
def epochRange (start_epoch epochs : Nat) : List Nat :=
  List.range' start_epoch (epochs + 1 - start_epoch)

/-- Embedding of `BaseTrainer.train` (lines 302-323): iterate the step
over `range(start_epoch, epochs + 1)` from the given `best_score`. -/
def train (cfg : TrainCfg) (valScore : Nat → ℚ) (start_epoch : Nat) (best0 : XR) :
    Option (XR × List Event) :=
  trainFrom cfg valScore best0 (epochRange start_epoch cfg.epochs)

/-- Proof helper: the events of one loop iteration, as a total function
(defined when `validation_interval ≠ 0`, which `__init__` asserts). -/
def stepEvents (cfg : TrainCfg) (valScore : Nat → ℚ) (epoch : Nat) (best : XR) :
    List Event :=
  [Event.trainEpoch epoch] ++
  (if cfg.save_checkpoint_interval ≠ 0 ∧ epoch % cfg.save_checkpoint_interval = 0
    then [Event.savePeriodic epoch] else []) ++
  (if epoch % cfg.validation_interval = 0 then
     [Event.validate epoch] ++
     (if (is_best_epoch (valScore epoch) best cfg.save_max_metric_score).1
       then [Event.saveBest epoch] else [])
   else [])

/-- Proof helper: the `best_score` after one loop iteration, as a total
function. -/
def stepBestState (cfg : TrainCfg) (valScore : Nat → ℚ) (best : XR) (epoch : Nat) :
    XR :=
  if epoch % cfg.validation_interval = 0 then
    (is_best_epoch (valScore epoch) best cfg.save_max_metric_score).2
  else best

/-- Proof helper: the full event trace of the loop, as a total function. -/
def traceEvents (cfg : TrainCfg) (valScore : Nat → ℚ) : XR → List Nat → List Event
  | _, [] => []
  | best, e :: rest =>
      stepEvents cfg valScore e best ++
        traceEvents cfg valScore (stepBestState cfg valScore best e) rest

/-- The value of `self.best_score` when the loop reaches epoch `e`,
having started at `start_epoch` with score `best0`. -/
def bestBefore (cfg : TrainCfg) (valScore : Nat → ℚ) (best0 : XR)
    (start_epoch e : Nat) : XR :=
  (List.range' start_epoch (e - start_epoch)).foldl (stepBestState cfg valScore) best0

/-- Python errors surfaced by the embedded methods: a failed `assert`
statement (which aborts the process) or a dictionary `KeyError`. -/
inductive PyErr where
  | assertionError (msg : String)
  | keyError (key : String)
deriving DecidableEq, Repr

/-- Embedding of `BaseTrainer._preload_model` (lines 103-119): assert that
the given `*.tar` path exists (the file system is modelled as an existence
predicate, loading as an abstract function from paths to model blobs),
then load the parameters found there. -/
def preload_model {μ : Type} (fsExists : String → Bool) (loadModel : String → μ)
    (model_path : String) : Except PyErr μ :=
  if fsExists model_path then .ok (loadModel model_path)
  else .error (.assertionError
    ("Preloaded *.tar file is not exist. please check path: " ++ model_path))

/-- Embedding of `BaseTrainer._resume_checkpoint`'s precondition (lines
128-129) together with the load (lines 131-140), with the failed assertion
surfaced as a `PyErr` (companion of `resume_checkpoint`, which carries the
message only). -/
def resume_checkpoint_checked {ο μ : Type} (s : TrainerState ο μ)
    (store : FileStore ο μ) : Except PyErr (TrainerState ο μ) :=
  match resume_checkpoint s store with
  | .error msg => .error (.assertionError msg)
  | .ok s' => .ok s'

/-- The two config keys involved in the preload decision of `__init__`:
the tested key `config["meta"]["preloaded_model_path"]` (a string value;
Python truthiness: the empty string is falsy) and the looked-up top-level
key `config["preloaded_model_path"]` (`none` models an absent key, whose
subscript access raises `KeyError`). -/
structure PreloadConfig where
  meta_preloaded_model_path : String
  top_preloaded_model_path : Option String
deriving DecidableEq, Repr

/-- Embedding of the preload fragment of `BaseTrainer.__init__`
(lines 90-91):
```
if config["meta"]["preloaded_model_path"]:
    self._preload_model(Path(config["preloaded_model_path"]))
```
Returns the path handed to `_preload_model` (`none` when the guard is
falsy) or the Python error raised. -/
def initPreload {μ : Type} (cfg : PreloadConfig) (fsExists : String → Bool)
    (loadModel : String → μ) : Except PyErr (Option String) :=
  if cfg.meta_preloaded_model_path ≠ "" then
    match cfg.top_preloaded_model_path with
    | none => .error (.keyError "preloaded_model_path")
    | some p => (preload_model fsExists loadModel p).map fun _ => some p
  else .ok none

/-- Mean of a list of rationals: `np.mean` on a list of metric scores
(scores are modelled as rationals; the empty-list mean, `NaN` in numpy,
is the junk value `0/0 = 0`). -/
def qmean (xs : List ℚ) : ℚ := xs.sum / xs.length

/-- The external surface used by `metrics_visualization`: the registry
`util.metrics.REGISTERED_METRICS` (a metric scores a `(reference,
estimate)` pair of audio signals of type `γ`) and the helper
`util.acoustic_utils.transform_pesq_range`. -/
structure MetricsEnv (γ : Type) where
  REGISTERED_METRICS : String → Option (γ → γ → ℚ)
  transform_pesq_range : ℚ → ℚ

/-- One `writer.add_scalars` call of `metrics_visualization` (lines
289-292): the metric name with its mean score on the noisy and on the
enhanced audio. -/
structure ScalarsLog where
  metric_name : String
  noisy_mean : ℚ
  enhanced_mean : ℚ
deriving DecidableEq, Repr

/-- The registration assertion loop of `metrics_visualization` (lines
272-273): `for i in metrics_list: assert i in REGISTERED_METRICS`. -/
def checkRegistered {γ : Type} (env : MetricsEnv γ) :
    List String → Except PyErr Unit
  | [] => .ok ()
  | m :: rest =>
      if (env.REGISTERED_METRICS m).isSome then checkRegistered env rest
      else .error (.assertionError
        (m ++ " is not registered metric, please check util.metrics."))

/-- One iteration of the `for metric_name in metrics_list` loop of
`metrics_visualization` (lines 277-298): score every `(clean, noisy)` and
`(clean, enhanced)` pair with the registered metric (the worker pool's
result list; `parallel_scores_eq_seq` relates the pool to this
`List.map`), log both means, and update the `stoi_mean` / `wb_pesq_mean`
accumulators. The accumulator is `(stoi_mean, wb_pesq_mean, logs)`. -/
def metricStep {γ : Type} (env : MetricsEnv γ)
    (noisy_list clean_list enhanced_list : List γ)
    (acc : ℚ × ℚ × List ScalarsLog) (metric_name : String) :
    Except PyErr (ℚ × ℚ × List ScalarsLog) :=
  match env.REGISTERED_METRICS metric_name with
  | none => .error (.keyError metric_name)
  | some metric =>
    let score_on_noisy := (clean_list.zip noisy_list).map fun p => metric p.1 p.2
    let score_on_enhanced :=
      (clean_list.zip enhanced_list).map fun p => metric p.1 p.2
    let mean_score_on_noisy := qmean score_on_noisy
    let mean_score_on_enhanced := qmean score_on_enhanced
    .ok (if metric_name = "STOI" then mean_score_on_enhanced else acc.1,
         if metric_name = "WB_PESQ" then env.transform_pesq_range mean_score_on_enhanced
           else acc.2.1,
         acc.2.2 ++ [⟨metric_name, mean_score_on_noisy, mean_score_on_enhanced⟩])

/-- Embedding of `BaseTrainer.metrics_visualization` (lines 259-300):
assert `"STOI"` and `"WB_PESQ"` are requested, assert every requested
metric is registered, then run the metric loop from
`stoi_mean = wb_pesq_mean = 0.0` and return
`(stoi_mean + wb_pesq_mean) / 2` together with the logged scalars. -/
def metrics_visualization {γ : Type} (env : MetricsEnv γ)
    (noisy_list clean_list enhanced_list : List γ)
    (metrics_list : List String) : Except PyErr (ℚ × List ScalarsLog) :=
  if "STOI" ∈ metrics_list ∧ "WB_PESQ" ∈ metrics_list then do
    let _ ← checkRegistered env metrics_list
    let r ← metrics_list.foldlM
      (metricStep env noisy_list clean_list enhanced_list) (0, 0, [])
    .ok ((r.1 + r.2.1) / 2, r.2.2)
  else .error (.assertionError "STOI and WB_PESQ must be existence.")

/-- One job of the worker pool
`Parallel(n_jobs=num_workers)(delayed(metric)(ref, est) for ...)`: job `i`
scores the `i`-th pair and writes the result into its own slot of the
result table; there is no other shared state. An out-of-range index
leaves the table unchanged (no such job exists). -/
def runJob {α : Type} (f : α → ℚ) (xs : List α) (tbl : List (Option ℚ))
    (i : Nat) : List (Option ℚ) :=
  match xs[i]? with
  | some x => tbl.set i (some (f x))
  | none => tbl

/-- A completed run of the pool under a given schedule — the order in
which the workers finish the jobs, i.e. any interleaving of the
`num_workers` workers, hence any permutation of the job indices. -/
def runSchedule {α : Type} (f : α → ℚ) (xs : List α) (sched : List Nat) :
    List (Option ℚ) :=
  sched.foldl (runJob f xs) (List.replicate xs.length none)

end Trainer

namespace Trainer

theorem XR.leB_refl (a : XR) : XR.leB a a = true := by
  cases a <;> simp [XR.leB]

theorem head?_scanl {α β : Type} (f : α → β → α) (a : α) (l : List β) :
    (l.scanl f a).head? = some a := by
  cases l <;> simp [List.scanl]

theorem chain'_scanl {α β : Type} (R : α → α → Prop) (f : α → β → α)
    (h : ∀ a b, R a (f a b)) : ∀ (l : List β) (a : α), (l.scanl f a).Chain' R
  | [], _ => by simp [List.scanl]
  | b :: l, a => by
      rw [List.scanl]
      refine List.chain'_cons'.mpr ⟨?_, chain'_scanl R f h l (f a b)⟩
      intro y hy
      rw [head?_scanl] at hy
      cases hy
      exact h a b

theorem bestStep_le_max (b : XR) (s : ℚ) : XR.leB b (bestStep true b s) = true := by
  unfold bestStep is_best_epoch
  cases h : XR.leB b (.fin s) <;> simp [h, XR.leB_refl]

theorem bestStep_le_min (b : XR) (s : ℚ) : XR.leB (bestStep false b s) b = true := by
  unfold bestStep is_best_epoch
  cases h : XR.leB (.fin s) b <;> simp [h, XR.leB_refl]

theorem digitChar_inj : ∀ d < 10, ∀ d' < 10, digitChar d = digitChar d' → d = d' := by
  decide

theorem digitChar_ne_zeroChar : ∀ d < 10, d ≠ 0 → digitChar d ≠ '0' := by
  decide

theorem map_digitChar_inj : ∀ (l1 l2 : List Nat), (∀ x ∈ l1, x < 10) →
    (∀ x ∈ l2, x < 10) → l1.map digitChar = l2.map digitChar → l1 = l2
  | [], [], _, _, _ => rfl
  | [], _ :: _, _, _, h => by simp at h
  | _ :: _, [], _, _, h => by simp at h
  | a :: l1, b :: l2, h1, h2, h => by
      simp only [List.map_cons, List.cons.injEq] at h
      have hab := digitChar_inj a (h1 a (by simp)) b (h2 b (by simp)) h.1
      subst hab
      rw [map_digitChar_inj l1 l2 (fun x hx => h1 x (by simp [hx]))
        (fun x hx => h2 x (by simp [hx])) h.2]

theorem digits_reverse_lt_ten (n : Nat) : ∀ x ∈ (Nat.digits 10 n).reverse, x < 10 := by
  intro x hx
  exact Nat.digits_lt_base (by norm_num) (List.mem_reverse.mp hx)

theorem decRepr_inj (m n : Nat) (h : decRepr m = decRepr n) : m = n := by
  unfold decRepr at h
  by_cases hm : m = 0 <;> by_cases hn : n = 0
  · rw [hm, hn]
  · rw [if_pos hm, if_neg hn] at h
    have h0 : ([0] : List Nat).map digitChar = ((Nat.digits 10 n).reverse).map digitChar := by
      rw [← h]; rfl
    have := map_digitChar_inj [0] ((Nat.digits 10 n).reverse) (by decide)
      (digits_reverse_lt_ten n) h0
    have hd : Nat.digits 10 n = [0] := by
      have := congrArg List.reverse this
      simpa using this.symm
    have := Nat.ofDigits_digits 10 n
    rw [hd] at this
    simp [Nat.ofDigits] at this
    exact absurd this.symm hn
  · rw [if_neg hm, if_pos hn] at h
    have h0 : ((Nat.digits 10 m).reverse).map digitChar = ([0] : List Nat).map digitChar := by
      rw [h]; rfl
    have := map_digitChar_inj ((Nat.digits 10 m).reverse) [0]
      (digits_reverse_lt_ten m) (by decide) h0
    have hd : Nat.digits 10 m = [0] := by
      have := congrArg List.reverse this
      simpa using this
    have := Nat.ofDigits_digits 10 m
    rw [hd] at this
    simp [Nat.ofDigits] at this
    exact absurd this.symm hm
  · rw [if_neg hm, if_neg hn] at h
    have := map_digitChar_inj ((Nat.digits 10 m).reverse) ((Nat.digits 10 n).reverse)
      (digits_reverse_lt_ten m) (digits_reverse_lt_ten n) h
    have hd : Nat.digits 10 m = Nat.digits 10 n := by
      have := congrArg List.reverse this
      simpa using this
    rw [← Nat.ofDigits_digits 10 m, ← Nat.ofDigits_digits 10 n, hd]

theorem dropWhile_replicate_append {p : Char → Bool} {c : Char} (hc : p c = true)
    (k : Nat) (l : List Char) :
    List.dropWhile p (List.replicate k c ++ l) = List.dropWhile p l := by
  induction k with
  | zero => simp
  | succ k ih => simp [List.replicate_succ, List.dropWhile_cons, hc, ih]

theorem decRepr_head_ne_zero (n : Nat) (hn : n ≠ 0) :
    ∃ d t, (Nat.digits 10 n).reverse = d :: t ∧ d < 10 ∧ d ≠ 0 := by
  have hne : Nat.digits 10 n ≠ [] := Nat.digits_ne_nil_iff_ne_zero.mpr hn
  cases hrev : (Nat.digits 10 n).reverse with
  | nil => exact absurd (by simpa using congrArg List.reverse hrev) hne
  | cons d t =>
      refine ⟨d, t, rfl, ?_, ?_⟩
      · exact digits_reverse_lt_ten n d (by rw [hrev]; simp)
      · have hds : Nat.digits 10 n = t.reverse ++ [d] := by
          have := congrArg List.reverse hrev
          simpa using this
        have hgl : (Nat.digits 10 n).getLast hne ≠ 0 :=
          Nat.getLast_digit_ne_zero 10 hn
        have h1 : (Nat.digits 10 n).getLast? = some d := by
          rw [hds]; simp
        have h2 : (Nat.digits 10 n).getLast? = some ((Nat.digits 10 n).getLast hne) :=
          List.getLast?_eq_getLast _ hne
        rw [h1] at h2
        injection h2 with h3
        rw [h3]
        exact hgl

theorem stripZeros_decRepr (n : Nat) (hn : n ≠ 0) : stripZeros (decRepr n) = decRepr n := by
  obtain ⟨d, t, hdt, hlt, hne⟩ := decRepr_head_ne_zero n hn
  unfold decRepr stripZeros
  rw [if_neg hn, hdt, List.map_cons, List.dropWhile_cons, if_neg]
  simp only [beq_iff_eq]
  exact fun hc => digitChar_ne_zeroChar d hlt hne hc

theorem decRepr_ne_nil (n : Nat) : decRepr n ≠ [] := by
  unfold decRepr
  by_cases hn : n = 0
  · simp [hn]
  · rw [if_neg hn]
    simp [Nat.digits_ne_nil_iff_ne_zero.mpr hn]

theorem stripZeros_replicate (k : Nat) (l : List Char) :
    stripZeros (List.replicate k '0' ++ l) = stripZeros l :=
  dropWhile_replicate_append rfl k l

theorem zfill_decRepr_inj (m n : Nat)
    (h : zfillChars 4 (decRepr m) = zfillChars 4 (decRepr n)) : m = n := by
  have hs := congrArg stripZeros h
  unfold zfillChars at hs
  rw [stripZeros_replicate, stripZeros_replicate] at hs
  by_cases hm : m = 0 <;> by_cases hn : n = 0
  · rw [hm, hn]
  · rw [hm] at hs
    rw [show stripZeros (decRepr 0) = [] from rfl] at hs
    rw [stripZeros_decRepr n hn] at hs
    exact absurd hs.symm (decRepr_ne_nil n)
  · rw [hn] at hs
    rw [show stripZeros (decRepr 0) = [] from rfl] at hs
    rw [stripZeros_decRepr m hm] at hs
    exact absurd hs (decRepr_ne_nil m)
  · rw [stripZeros_decRepr m hm, stripZeros_decRepr n hn] at hs
    exact decRepr_inj m n hs

theorem perEpochName_inj (e1 e2 : Nat) (h : perEpochName e1 = perEpochName e2) :
    e1 = e2 := by
  have h2 : "model_".data ++ zfillChars 4 (decRepr e1) ++ ".tar".data
      = "model_".data ++ zfillChars 4 (decRepr e2) ++ ".tar".data :=
    congrArg String.data h
  rw [List.append_assoc, List.append_assoc] at h2
  have h3 := List.append_cancel_left h2
  have h4 := List.append_cancel_right h3
  exact zfill_decRepr_inj e1 e2 h4

theorem perEpochName_ne_latest (e : Nat) : perEpochName e ≠ "latest_model.tar" := by
  intro h
  have h2 : "model_".data ++ zfillChars 4 (decRepr e) ++ ".tar".data
      = "latest_model.tar".data := congrArg String.data h
  rw [show ("model_".data : List Char) = 'm' :: "odel_".data from rfl,
    List.cons_append, List.cons_append,
    show ("latest_model.tar".data : List Char) = 'l' :: "atest_model.tar".data from rfl] at h2
  injection h2 with h3 _
  exact absurd h3 (by decide)

theorem perEpochName_ne_best (e : Nat) : perEpochName e ≠ "best_model.tar" := by
  intro h
  have h2 : "model_".data ++ zfillChars 4 (decRepr e) ++ ".tar".data
      = "best_model.tar".data := congrArg String.data h
  rw [show ("model_".data : List Char) = 'm' :: "odel_".data from rfl,
    List.cons_append, List.cons_append,
    show ("best_model.tar".data : List Char) = 'b' :: "est_model.tar".data from rfl] at h2
  injection h2 with h3 _
  exact absurd h3 (by decide)

/-- C1: with `save_max_metric_score=True`, `_is_best_epoch` returns `True`
and updates `best_score` to `score` exactly when `score >= best_score`;
with `save_max_metric_score=False`, exactly when `score <= best_score`;
otherwise it returns `False` and leaves `best_score` unchanged. -/
theorem is_best_epoch_spec (score : ℚ) (best : XR) :
    (is_best_epoch score best true =
      if XR.leB best (.fin score) then (true, .fin score) else (false, best)) ∧
    (is_best_epoch score best false =
      if XR.leB (.fin score) best then (true, .fin score) else (false, best)) := by
  constructor <;>· simp only [is_best_epoch]
                   cases h : XR.leB best (.fin score) <;>
                     cases h' : XR.leB (.fin score) best <;> simp [h, h']

/-- C3: saving a checkpoint at epoch `e` and then resuming — from any
in-memory state — yields `start_epoch = e + 1` and the `best_score` held
at save time: the latest checkpoint's epoch and score round-trip through
the saved record and supersede the in-memory counters. -/
theorem checkpoint_roundtrip {ο μ : Type} (s s' : TrainerState ο μ)
    (store : FileStore ο μ) (epoch : Nat) (is_best : Bool) :
    resume_checkpoint s' (save_checkpoint s store epoch is_best) =
      .ok { start_epoch := epoch + 1, best_score := s.best_score,
            optimizer := s.optimizer, model := s.model } := by
  unfold resume_checkpoint save_checkpoint
  cases is_best <;>
    simp [Ne.symm (perEpochName_ne_latest epoch),
      show ("latest_model.tar" : String) ≠ "best_model.tar" by decide]

/-- C4: `_save_checkpoint` writes the record
`{epoch, best_score, optimizer blob, model blob}` to `latest_model.tar`
(overwritten each save) and to `model_{epoch zero-padded to 4 digits}.tar`
(a distinct file per epoch, leaving every other epoch's file untouched),
and to `best_model.tar` exactly on best epochs (otherwise that file is
untouched). -/
theorem save_checkpoint_locations {ο μ : Type} (s : TrainerState ο μ)
    (store : FileStore ο μ) (epoch : Nat) (is_best : Bool) :
    save_checkpoint s store epoch is_best "latest_model.tar"
        = some ⟨epoch, s.best_score, s.optimizer, s.model⟩ ∧
    save_checkpoint s store epoch is_best (perEpochName epoch)
        = some ⟨epoch, s.best_score, s.optimizer, s.model⟩ ∧
    (is_best = true → save_checkpoint s store epoch is_best "best_model.tar"
        = some ⟨epoch, s.best_score, s.optimizer, s.model⟩) ∧
    (is_best = false → save_checkpoint s store epoch is_best "best_model.tar"
        = store "best_model.tar") ∧
    (∀ e', e' ≠ epoch →
      save_checkpoint s store epoch is_best (perEpochName e')
        = store (perEpochName e')) ∧
    (∀ e1 e2 : Nat, perEpochName e1 = perEpochName e2 → e1 = e2) := by
  unfold save_checkpoint
  cases is_best <;>
    refine ⟨?_, ?_, ?_, ?_, ?_, perEpochName_inj⟩ <;>
    simp [Ne.symm (perEpochName_ne_latest epoch),
      Ne.symm (perEpochName_ne_best epoch), perEpochName_ne_best,
      show ("latest_model.tar" : String) ≠ "best_model.tar" by decide,
      show ("best_model.tar" : String) ≠ "latest_model.tar" by decide] <;>
    intro e' he' <;>
    simp [perEpochName_ne_latest e', perEpochName_ne_best e'] <;>
    exact fun h => absurd (perEpochName_inj e' epoch h) he'

theorem trainStep_eq (cfg : TrainCfg) (v : Nat → ℚ) (e : Nat) (b : XR)
    (hvi : cfg.validation_interval ≠ 0) :
    trainStep cfg v e b = some (stepBestState cfg v b e, stepEvents cfg v e b) := by
  unfold trainStep shouldSavePeriodic pymod stepBestState stepEvents
  by_cases hsc : cfg.save_checkpoint_interval = 0 <;>
    by_cases hv : e % cfg.validation_interval = 0 <;>
      simp [hsc, hv, hvi, Option.bind]

theorem savePeriodic_mem_stepEvents (cfg : TrainCfg) (v : Nat → ℚ) (e : Nat) (b : XR)
    (e' : Nat) :
    Event.savePeriodic e' ∈ stepEvents cfg v e b ↔
      e' = e ∧ cfg.save_checkpoint_interval ≠ 0 ∧
        e % cfg.save_checkpoint_interval = 0 := by
  unfold stepEvents
  split_ifs <;> simp_all

theorem validate_mem_stepEvents (cfg : TrainCfg) (v : Nat → ℚ) (e : Nat) (b : XR)
    (e' : Nat) :
    Event.validate e' ∈ stepEvents cfg v e b ↔
      e' = e ∧ e % cfg.validation_interval = 0 := by
  unfold stepEvents
  split_ifs <;> simp_all

theorem saveBest_mem_stepEvents (cfg : TrainCfg) (v : Nat → ℚ) (e : Nat) (b : XR)
    (e' : Nat) :
    Event.saveBest e' ∈ stepEvents cfg v e b ↔
      e' = e ∧ e % cfg.validation_interval = 0 ∧
        (is_best_epoch (v e) b cfg.save_max_metric_score).1 = true := by
  unfold stepEvents
  split_ifs <;> simp_all

theorem savePeriodic_mem_traceEvents (cfg : TrainCfg) (v : Nat → ℚ) :
    ∀ (es : List Nat) (b : XR) (e : Nat),
      Event.savePeriodic e ∈ traceEvents cfg v b es ↔
        e ∈ es ∧ cfg.save_checkpoint_interval ≠ 0 ∧
          e % cfg.save_checkpoint_interval = 0
  | [], b, e => by simp [traceEvents]
  | e'' :: rest, b, e => by
      rw [traceEvents]
      constructor
      · intro h
        rcases List.mem_append.mp h with h | h
        · obtain ⟨h1, h2⟩ := (savePeriodic_mem_stepEvents cfg v e'' b e).mp h
          subst h1
          exact ⟨List.mem_cons_self _ _, h2⟩
        · obtain ⟨h1, h2⟩ :=
            (savePeriodic_mem_traceEvents cfg v rest
              (stepBestState cfg v b e'') e).mp h
          exact ⟨List.mem_cons_of_mem _ h1, h2⟩
      · rintro ⟨h1, h2⟩
        rcases List.mem_cons.mp h1 with h1 | h1
        · subst h1
          exact List.mem_append.mpr
            (Or.inl ((savePeriodic_mem_stepEvents cfg v e b e).mpr ⟨rfl, h2⟩))
        · exact List.mem_append.mpr
            (Or.inr ((savePeriodic_mem_traceEvents cfg v rest
              (stepBestState cfg v b e'') e).mpr ⟨h1, h2⟩))

theorem validate_mem_traceEvents (cfg : TrainCfg) (v : Nat → ℚ) :
    ∀ (es : List Nat) (b : XR) (e : Nat),
      Event.validate e ∈ traceEvents cfg v b es ↔
        e ∈ es ∧ e % cfg.validation_interval = 0
  | [], b, e => by simp [traceEvents]
  | e'' :: rest, b, e => by
      rw [traceEvents]
      constructor
      · intro h
        rcases List.mem_append.mp h with h | h
        · obtain ⟨h1, h2⟩ := (validate_mem_stepEvents cfg v e'' b e).mp h
          subst h1
          exact ⟨List.mem_cons_self _ _, h2⟩
        · obtain ⟨h1, h2⟩ :=
            (validate_mem_traceEvents cfg v rest (stepBestState cfg v b e'') e).mp h
          exact ⟨List.mem_cons_of_mem _ h1, h2⟩
      · rintro ⟨h1, h2⟩
        rcases List.mem_cons.mp h1 with h1 | h1
        · subst h1
          exact List.mem_append.mpr
            (Or.inl ((validate_mem_stepEvents cfg v e b e).mpr ⟨rfl, h2⟩))
        · exact List.mem_append.mpr
            (Or.inr ((validate_mem_traceEvents cfg v rest
              (stepBestState cfg v b e'') e).mpr ⟨h1, h2⟩))

theorem saveBest_epoch_mem (cfg : TrainCfg) (v : Nat → ℚ) :
    ∀ (es : List Nat) (b : XR) (e : Nat),
      Event.saveBest e ∈ traceEvents cfg v b es → e ∈ es
  | [], b, e => by simp [traceEvents]
  | e'' :: rest, b, e => by
      intro h
      rw [traceEvents] at h
      rcases List.mem_append.mp h with h | h
      · exact List.mem_cons.mpr
          (Or.inl ((saveBest_mem_stepEvents cfg v e'' b e).mp h).1)
      · exact List.mem_cons.mpr
          (Or.inr (saveBest_epoch_mem cfg v rest (stepBestState cfg v b e'') e h))

theorem saveBest_mem_range' (cfg : TrainCfg) (v : Nat → ℚ) :
    ∀ (n s : Nat) (b : XR) (e : Nat), s ≤ e → e < s + n →
      (Event.saveBest e ∈ traceEvents cfg v b (List.range' s n) ↔
        (e % cfg.validation_interval = 0 ∧
         (is_best_epoch (v e)
            ((List.range' s (e - s)).foldl (stepBestState cfg v) b)
            cfg.save_max_metric_score).1 = true))
  | 0, s, b, e, h1, h2 => by omega
  | n + 1, s, b, e, h1, h2 => by
      rw [List.range'_succ, traceEvents]
      by_cases he : e = s
      · subst he
        rw [Nat.sub_self, show List.range' e 0 = [] from rfl, List.foldl_nil]
        constructor
        · intro h
          rcases List.mem_append.mp h with h | h
          · obtain ⟨_, h2, h3⟩ := (saveBest_mem_stepEvents cfg v e b e).mp h
            exact ⟨h2, h3⟩
          · have := saveBest_epoch_mem cfg v _ _ e h
            rw [List.mem_range'_1] at this
            omega
        · rintro ⟨hv, hb⟩
          exact List.mem_append.mpr
            (Or.inl ((saveBest_mem_stepEvents cfg v e b e).mpr ⟨rfl, hv, hb⟩))
      · have hs : s < e := lt_of_le_of_ne h1 (Ne.symm he)
        have hfold : (List.range' s (e - s)).foldl (stepBestState cfg v) b
            = (List.range' (s + 1) (e - (s + 1))).foldl (stepBestState cfg v)
                (stepBestState cfg v b s) := by
          rw [show e - s = (e - (s + 1)) + 1 by omega, List.range'_succ, List.foldl_cons]
        have IH := saveBest_mem_range' cfg v n (s + 1) (stepBestState cfg v b s) e
          (by omega) (by omega)
        rw [hfold, ← IH]
        constructor
        · intro h
          rcases List.mem_append.mp h with h | h
          · exact absurd ((saveBest_mem_stepEvents cfg v s b e).mp h).1 he
          · exact h
        · intro h
          exact List.mem_append.mpr (Or.inr h)

theorem trainFrom_eq (cfg : TrainCfg) (v : Nat → ℚ)
    (hvi : cfg.validation_interval ≠ 0) :
    ∀ (es : List Nat) (b : XR),
      trainFrom cfg v b es =
        some (es.foldl (stepBestState cfg v) b, traceEvents cfg v b es)
  | [], b => by simp [trainFrom, traceEvents]
  | e :: rest, b => by
      rw [trainFrom, trainStep_eq cfg v e b hvi,
        show (List.foldl (stepBestState cfg v) b (e :: rest))
          = List.foldl (stepBestState cfg v) (stepBestState cfg v b e) rest
          from rfl, traceEvents]
      simp [trainFrom_eq cfg v hvi rest (stepBestState cfg v b e)]

/-- C2: in `train()`, for every epoch `e` from `start_epoch` through
`epochs`, a periodic checkpoint is saved iff
`save_checkpoint_interval ≠ 0` and `e` is a multiple of
`save_checkpoint_interval`; validation runs iff `e` is a multiple of
`validation_interval`; and a best-model checkpoint is saved iff that
validation ran and its score passed the best-epoch check. -/
theorem train_cadence (cfg : TrainCfg) (v : Nat → ℚ) (start_epoch : Nat)
    (best0 : XR) (e : Nat) (hvi : 1 ≤ cfg.validation_interval)
    (h1 : start_epoch ≤ e) (h2 : e ≤ cfg.epochs) :
    ∃ best trace, train cfg v start_epoch best0 = some (best, trace) ∧
      (Event.savePeriodic e ∈ trace ↔
        cfg.save_checkpoint_interval ≠ 0 ∧
          e % cfg.save_checkpoint_interval = 0) ∧
      (Event.validate e ∈ trace ↔ e % cfg.validation_interval = 0) ∧
      (Event.saveBest e ∈ trace ↔ e % cfg.validation_interval = 0 ∧
        (is_best_epoch (v e) (bestBefore cfg v best0 start_epoch e)
          cfg.save_max_metric_score).1 = true) := by
  have hvi' : cfg.validation_interval ≠ 0 := by omega
  have hmem : e ∈ epochRange start_epoch cfg.epochs := by
    unfold epochRange
    rw [List.mem_range'_1]
    omega
  refine ⟨_, _, by rw [train, trainFrom_eq cfg v hvi'], ?_, ?_, ?_⟩
  · rw [savePeriodic_mem_traceEvents]
    simp [hmem]
  · rw [validate_mem_traceEvents]
    simp [hmem]
  · unfold bestBefore
    exact saveBest_mem_range' cfg v _ _ best0 e h1 (by omega)

theorem train_cadence_witness :
    ∃ best trace,
      train ⟨4, 2, 1, true⟩ (fun _ => (1 : ℚ)) 1 XR.negInf = some (best, trace) ∧
      (Event.savePeriodic 2 ∈ trace ↔ (2 : Nat) ≠ 0 ∧ 2 % 2 = 0) ∧
      (Event.validate 2 ∈ trace ↔ 2 % 1 = 0) ∧
      (Event.saveBest 2 ∈ trace ↔ 2 % 1 = 0 ∧
        (is_best_epoch 1
          (bestBefore ⟨4, 2, 1, true⟩ (fun _ => (1 : ℚ)) XR.negInf 1 2) true).1
          = true) :=
  train_cadence ⟨4, 2, 1, true⟩ (fun _ => (1 : ℚ)) 1 XR.negInf 2
    (by decide) (by decide) (by decide)

/-- C9: when `save_checkpoint_interval = 0`, the short-circuit guard of
line 311 evaluates to `False` without ever computing
`epoch % save_checkpoint_interval` (no `ZeroDivisionError`), so `train()`
runs to completion, saves no periodic checkpoint at any epoch, and still
saves the best-epoch checkpoints produced by validation. -/
theorem zero_interval_disables_periodic (cfg : TrainCfg) (v : Nat → ℚ)
    (start_epoch : Nat) (best0 : XR)
    (hsc : cfg.save_checkpoint_interval = 0)
    (hvi : 1 ≤ cfg.validation_interval) :
    (∀ e, shouldSavePeriodic cfg.save_checkpoint_interval e = some false) ∧
    ∃ best trace, train cfg v start_epoch best0 = some (best, trace) ∧
      (∀ e, Event.savePeriodic e ∉ trace) ∧
      (∀ e, start_epoch ≤ e → e ≤ cfg.epochs →
        (Event.saveBest e ∈ trace ↔ e % cfg.validation_interval = 0 ∧
          (is_best_epoch (v e) (bestBefore cfg v best0 start_epoch e)
            cfg.save_max_metric_score).1 = true)) := by
  have hvi' : cfg.validation_interval ≠ 0 := by omega
  refine ⟨fun e => by simp [shouldSavePeriodic, hsc], _, _,
    by rw [train, trainFrom_eq cfg v hvi'], ?_, ?_⟩
  · intro e h
    rw [savePeriodic_mem_traceEvents] at h
    exact h.2.1 hsc
  · intro e he1 he2
    unfold bestBefore
    exact saveBest_mem_range' cfg v _ _ best0 e he1 (by omega)

theorem zero_interval_disables_periodic_witness :
    (∀ e, shouldSavePeriodic 0 e = some false) ∧
    ∃ best trace,
      train ⟨3, 0, 1, true⟩ (fun _ => (1 : ℚ)) 1 XR.negInf = some (best, trace) ∧
      (∀ e, Event.savePeriodic e ∉ trace) ∧
      (∀ e, 1 ≤ e → e ≤ 3 →
        (Event.saveBest e ∈ trace ↔ e % 1 = 0 ∧
          (is_best_epoch 1
            (bestBefore ⟨3, 0, 1, true⟩ (fun _ => (1 : ℚ)) XR.negInf 1 e) true).1
            = true)) :=
  zero_interval_disables_periodic ⟨3, 0, 1, true⟩ (fun _ => (1 : ℚ)) 1 XR.negInf
    (by decide) (by decide)

theorem checkRegistered_eq_ok {γ : Type} (env : MetricsEnv γ) :
    ∀ ml : List String, checkRegistered env ml = .ok () ↔
      ∀ m ∈ ml, (env.REGISTERED_METRICS m).isSome
  | [] => by simp [checkRegistered]
  | m :: rest => by
      simp only [checkRegistered]
      by_cases h : (env.REGISTERED_METRICS m).isSome
      · rw [if_pos h, checkRegistered_eq_ok env rest]
        constructor
        · intro hr m' hm'
          rcases List.mem_cons.mp hm' with rfl | hm'
          · exact h
          · exact hr m' hm'
        · intro hall m' hm'
          exact hall m' (List.mem_cons_of_mem _ hm')
      · rw [if_neg h]
        constructor
        · intro he
          simp at he
        · intro hall
          exact absurd (hall m (List.mem_cons_self _ _)) h

theorem metricStep_eq {γ : Type} (env : MetricsEnv γ)
    (noisy_list clean_list enhanced_list : List γ)
    (acc : ℚ × ℚ × List ScalarsLog) (m : String) (f : γ → γ → ℚ)
    (hf : env.REGISTERED_METRICS m = some f) :
    metricStep env noisy_list clean_list enhanced_list acc m =
      .ok (if m = "STOI" then
             qmean ((clean_list.zip enhanced_list).map fun p => f p.1 p.2)
           else acc.1,
           if m = "WB_PESQ" then
             env.transform_pesq_range
               (qmean ((clean_list.zip enhanced_list).map fun p => f p.1 p.2))
           else acc.2.1,
           acc.2.2 ++
             [⟨m, qmean ((clean_list.zip noisy_list).map fun p => f p.1 p.2),
               qmean ((clean_list.zip enhanced_list).map fun p => f p.1 p.2)⟩]) := by
  simp [metricStep, hf]

theorem foldlM_metricStep_eq {γ : Type} (env : MetricsEnv γ)
    (noisy_list clean_list enhanced_list : List γ) :
    ∀ (ml : List String) (acc : ℚ × ℚ × List ScalarsLog),
      (∀ m ∈ ml, (env.REGISTERED_METRICS m).isSome) →
      ∃ r, ml.foldlM (metricStep env noisy_list clean_list enhanced_list) acc
          = .ok r ∧
        r.1 = (if "STOI" ∈ ml then
            qmean ((clean_list.zip enhanced_list).map fun p =>
              (env.REGISTERED_METRICS "STOI").getD (fun _ _ => 0) p.1 p.2)
          else acc.1) ∧
        r.2.1 = (if "WB_PESQ" ∈ ml then
            env.transform_pesq_range
              (qmean ((clean_list.zip enhanced_list).map fun p =>
                (env.REGISTERED_METRICS "WB_PESQ").getD (fun _ _ => 0) p.1 p.2))
          else acc.2.1)
  | [], acc, _ => ⟨acc, rfl, by simp, by simp⟩
  | m :: rest, acc, hreg => by
      obtain ⟨f, hf⟩ :=
        Option.isSome_iff_exists.mp (hreg m (List.mem_cons_self _ _))
      obtain ⟨r, hr, h1, h2⟩ :=
        foldlM_metricStep_eq env noisy_list clean_list enhanced_list rest
          (if m = "STOI" then
             qmean ((clean_list.zip enhanced_list).map fun p => f p.1 p.2)
           else acc.1,
           if m = "WB_PESQ" then
             env.transform_pesq_range
               (qmean ((clean_list.zip enhanced_list).map fun p => f p.1 p.2))
           else acc.2.1,
           acc.2.2 ++
             [⟨m, qmean ((clean_list.zip noisy_list).map fun p => f p.1 p.2),
               qmean ((clean_list.zip enhanced_list).map fun p => f p.1 p.2)⟩])
          (fun m' hm' => hreg m' (List.mem_cons_of_mem _ hm'))
      refine ⟨r, ?_, ?_, ?_⟩
      · rw [List.foldlM_cons,
          metricStep_eq env noisy_list clean_list enhanced_list acc m f hf]
        simpa using hr
      · rw [h1]
        by_cases hm1 : "STOI" ∈ rest
        · simp [hm1]
        · by_cases hm2 : m = "STOI"
          · subst hm2
            simp [hm1, hf]
          · simp [hm1, hm2, Ne.symm hm2]
      · rw [h2]
        by_cases hm1 : "WB_PESQ" ∈ rest
        · simp [hm1]
        · by_cases hm2 : m = "WB_PESQ"
          · subst hm2
            simp [hm1, hf]
          · simp [hm1, hm2, Ne.symm hm2]

/-- C5: each precondition is a hard assertion with no recovery:
`_resume_checkpoint` fails exactly when `latest_model.tar` is absent from
the checkpoints directory, `_preload_model` fails exactly when the given
model path does not exist, and `metrics_visualization` fails exactly when
`"STOI"` or `"WB_PESQ"` is missing from `metrics_list` or some requested
metric name is not in `util.metrics.REGISTERED_METRICS`. -/
theorem hard_assertions {ο μ γ : Type} (s : TrainerState ο μ)
    (store : FileStore ο μ) (fsExists : String → Bool)
    (loadModel : String → μ) (model_path : String) (env : MetricsEnv γ)
    (noisy_list clean_list enhanced_list : List γ)
    (metrics_list : List String) :
    ((∃ msg, resume_checkpoint s store = .error msg) ↔
      store "latest_model.tar" = none) ∧
    ((∃ err, preload_model fsExists loadModel model_path = .error err) ↔
      fsExists model_path = false) ∧
    ((∃ err, metrics_visualization env noisy_list clean_list enhanced_list
        metrics_list = .error err) ↔
      ¬("STOI" ∈ metrics_list ∧ "WB_PESQ" ∈ metrics_list ∧
        ∀ m ∈ metrics_list, (env.REGISTERED_METRICS m).isSome)) := by
  refine ⟨?_, ?_, ?_⟩
  · unfold resume_checkpoint
    cases h : store "latest_model.tar" <;> simp [h]
  · unfold preload_model
    cases h : fsExists model_path <;> simp [h]
  · unfold metrics_visualization
    by_cases hmem : "STOI" ∈ metrics_list ∧ "WB_PESQ" ∈ metrics_list
    · rw [if_pos hmem]
      by_cases hreg : ∀ m ∈ metrics_list, (env.REGISTERED_METRICS m).isSome
      · have hcr := (checkRegistered_eq_ok env metrics_list).mpr hreg
        obtain ⟨r, hr, -, -⟩ :=
          foldlM_metricStep_eq env noisy_list clean_list enhanced_list
            metrics_list (0, 0, []) hreg
        rw [hcr, hr]
        constructor
        · rintro ⟨err, herr⟩
          exact Except.noConfusion herr
        · intro hc
          exact absurd ⟨hmem.1, hmem.2, hreg⟩ hc
      · cases hcr : checkRegistered env metrics_list with
        | ok u =>
            cases u
            exact absurd ((checkRegistered_eq_ok env metrics_list).mp hcr) hreg
        | error e =>
            constructor
            · rintro - ⟨-, -, hc⟩
              exact hreg hc
            · intro _
              exact ⟨e, rfl⟩
    · rw [if_neg hmem]
      constructor
      · intro _
        intro hc
        exact hmem ⟨hc.1, hc.2.1⟩
      · intro _
        exact ⟨.assertionError "STOI and WB_PESQ must be existence.", rfl⟩

/-- C7: for every `metrics_list` containing `"STOI"` and `"WB_PESQ"` (with
every requested metric registered, so the assertions pass),
`metrics_visualization` returns
`(mean STOI on enhanced + transform_pesq_range (mean WB_PESQ on enhanced)) / 2`:
the scores computed on the noisy audio and on any other registered metric
reach only the log, never the returned value. -/
theorem metrics_visualization_return {γ : Type} (env : MetricsEnv γ)
    (noisy_list clean_list enhanced_list : List γ)
    (metrics_list : List String) (stoiF pesqF : γ → γ → ℚ)
    (hstoiR : env.REGISTERED_METRICS "STOI" = some stoiF)
    (hpesqR : env.REGISTERED_METRICS "WB_PESQ" = some pesqF)
    (hreg : ∀ m ∈ metrics_list, (env.REGISTERED_METRICS m).isSome)
    (hstoi : "STOI" ∈ metrics_list) (hpesq : "WB_PESQ" ∈ metrics_list) :
    ∃ logs,
      metrics_visualization env noisy_list clean_list enhanced_list metrics_list
        = .ok
          ((qmean ((clean_list.zip enhanced_list).map fun p => stoiF p.1 p.2) +
            env.transform_pesq_range
              (qmean ((clean_list.zip enhanced_list).map fun p => pesqF p.1 p.2)))
            / 2, logs) := by
  obtain ⟨r, hr, h1, h2⟩ :=
    foldlM_metricStep_eq env noisy_list clean_list enhanced_list
      metrics_list (0, 0, []) hreg
  refine ⟨r.2.2, ?_⟩
  have hdo : metrics_visualization env noisy_list clean_list enhanced_list
      metrics_list = .ok ((r.1 + r.2.1) / 2, r.2.2) := by
    unfold metrics_visualization
    rw [if_pos ⟨hstoi, hpesq⟩,
      (checkRegistered_eq_ok env metrics_list).mpr hreg, hr]
    rfl
  rw [hdo, h1, h2, if_pos hstoi, if_pos hpesq, hstoiR, hpesqR]
  rfl

theorem metrics_visualization_return_witness :
    ∃ logs,
      metrics_visualization
        ⟨fun m => if m = "STOI" then some (fun a b => a + b)
                  else if m = "WB_PESQ" then some (fun a b => a * b)
                  else none,
         fun x => x * 2⟩
        [(5 : ℚ)] [(2 : ℚ)] [(3 : ℚ)] ["STOI", "WB_PESQ"]
        = .ok
          ((qmean ((([(2 : ℚ)].zip [(3 : ℚ)]).map fun p => p.1 + p.2)) +
            (qmean (([(2 : ℚ)].zip [(3 : ℚ)]).map fun p => p.1 * p.2)) * 2)
            / 2, logs) :=
  metrics_visualization_return
    ⟨fun m => if m = "STOI" then some (fun a b => a + b)
              else if m = "WB_PESQ" then some (fun a b => a * b)
              else none,
     fun x => x * 2⟩
    [(5 : ℚ)] [(2 : ℚ)] [(3 : ℚ)] ["STOI", "WB_PESQ"]
    (fun a b => a + b) (fun a b => a * b) rfl rfl
    (by intro m hm; fin_cases hm <;> rfl) (by simp) (by simp)

/-- C8: when `config["meta"]["preloaded_model_path"]` is truthy, the
constructor builds the preload path from the top-level
`config["preloaded_model_path"]` rather than from the meta key it tested:
with the top-level key absent it raises `KeyError`, and with it present
the preloaded path is the top-level value (whatever the meta value was,
beyond its truthiness). -/
theorem init_preload_uses_top_level_key {μ : Type} (meta_path top_path : String)
    (fsExists : String → Bool) (loadModel : String → μ)
    (hmeta : meta_path ≠ "") (hfs : fsExists top_path = true) :
    initPreload ⟨meta_path, none⟩ fsExists loadModel
        = .error (.keyError "preloaded_model_path") ∧
    initPreload ⟨meta_path, some top_path⟩ fsExists loadModel
        = .ok (some top_path) := by
  constructor
  · simp [initPreload, hmeta]
  · simp [initPreload, hmeta, preload_model, hfs, Except.map]

theorem init_preload_uses_top_level_key_witness :
    initPreload ⟨"meta_model.tar", none⟩ (fun _ => true) (fun _ => ())
        = .error (.keyError "preloaded_model_path") ∧
    initPreload ⟨"meta_model.tar", some "top_model.tar"⟩ (fun _ => true)
        (fun _ => ())
        = .ok (some "top_model.tar") :=
  init_preload_uses_top_level_key "meta_model.tar" "top_model.tar"
    (fun _ => true) (fun _ => ()) (by decide) rfl

theorem runSchedule_getElem {α : Type} (f : α → ℚ) (xs : List α) :
    ∀ (sched : List Nat) (tbl : List (Option ℚ)), tbl.length = xs.length →
      ∀ i : Nat,
      (sched.foldl (runJob f xs) tbl)[i]? =
        if i ∈ sched ∧ i < xs.length then (xs[i]?).map (fun x => some (f x))
        else tbl[i]?
  | [], tbl, _, i => by simp
  | j :: rest, tbl, hlen, i => by
      rw [List.foldl_cons]
      have hlen' : (runJob f xs tbl j).length = xs.length := by
        unfold runJob
        cases h : xs[j]? <;> simp [hlen]
      rw [runSchedule_getElem f xs rest (runJob f xs tbl j) hlen' i]
      by_cases hA : i ∈ rest ∧ i < xs.length
      · rw [if_pos hA, if_pos ⟨List.mem_cons_of_mem _ hA.1, hA.2⟩]
      · rw [if_neg hA]
        by_cases h3 : i = j
        · subst h3
          by_cases h2 : i < xs.length
          · have hx : xs[i]? = some xs[i] := List.getElem?_eq_getElem h2
            rw [if_pos ⟨List.mem_cons_self _ _, h2⟩, hx]
            unfold runJob
            rw [hx]
            have h2' : i < tbl.length := hlen ▸ h2
            simp [List.getElem?_set_self, h2']
          · have hx : xs[i]? = none := by
              rw [List.getElem?_eq_none]
              omega
            rw [if_neg (fun hc => h2 hc.2)]
            unfold runJob
            rw [hx]
        · have hcond : ¬(i ∈ j :: rest ∧ i < xs.length) := by
            rintro ⟨hm, hl⟩
            rcases List.mem_cons.mp hm with rfl | hm
            · exact h3 rfl
            · exact hA ⟨hm, hl⟩
          rw [if_neg hcond]
          unfold runJob
          cases h : xs[j]? with
          | none => rfl
          | some x => exact List.getElem?_set_ne (fun h => h3 h.symm)

theorem reduceOption_map_some {β : Type} : ∀ l : List β, (l.map some).reduceOption = l
  | [] => rfl
  | x :: t => by simp [reduceOption_map_some t]

/-- C10: for every completion order of the bounded worker pool — each job
independently scoring its own pair and writing its own result slot, with
no shared mutable state, in any order (any permutation of the job
indices, covering every interleaving of the `num_workers` workers) — the
collected score table, the score list and its mean all equal those of the
sequential `List.map`. -/
theorem parallel_scores_eq_seq {α : Type} (f : α → ℚ) (xs : List α)
    (sched : List Nat) (hperm : sched.Perm (List.range xs.length)) :
    runSchedule f xs sched = (xs.map f).map some ∧
    (runSchedule f xs sched).reduceOption = xs.map f ∧
    qmean (runSchedule f xs sched).reduceOption = qmean (xs.map f) := by
  have hmem : ∀ i, i ∈ sched ↔ i < xs.length := by
    intro i
    rw [hperm.mem_iff, List.mem_range]
  have hmain : runSchedule f xs sched = (xs.map f).map some := by
    apply List.ext_getElem?
    intro i
    unfold runSchedule
    rw [runSchedule_getElem f xs sched _ (by simp) i]
    by_cases h : i < xs.length
    · rw [if_pos ⟨(hmem i).mpr h, h⟩]
      rw [List.getElem?_map, List.getElem?_map, List.getElem?_eq_getElem h]
      rfl
    · rw [if_neg (fun hc => h hc.2)]
      rw [List.getElem?_replicate]
      rw [if_neg h]
      have : ((xs.map f).map some).length ≤ i := by
        simp
        omega
      rw [List.getElem?_eq_none this]
  refine ⟨hmain, ?_, ?_⟩ <;> rw [hmain, reduceOption_map_some]

theorem parallel_scores_eq_seq_witness :
    runSchedule (fun x => x + 1) [(1 : ℚ), 2] [1, 0]
        = ([(1 : ℚ), 2].map (fun x => x + 1)).map some ∧
    (runSchedule (fun x => x + 1) [(1 : ℚ), 2] [1, 0]).reduceOption
        = [(1 : ℚ), 2].map (fun x => x + 1) ∧
    qmean (runSchedule (fun x => x + 1) [(1 : ℚ), 2] [1, 0]).reduceOption
        = qmean ([(1 : ℚ), 2].map (fun x => x + 1)) :=
  parallel_scores_eq_seq (fun x => x + 1) [(1 : ℚ), 2] [1, 0] (by decide)

/-- C6: across any sequence of `_is_best_epoch` calls starting from the
initial value (`-inf` when `save_max_metric_score` is true, `+inf` when
false), `best_score` is monotone — non-decreasing in max mode and
non-increasing in min mode — and a call changes `best_score` only to its
own score and only when it returned `True`. -/
theorem best_score_monotone (scores : List ℚ) :
    (bestTrace true scores).Chain' (fun a b => XR.leB a b = true) ∧
    (bestTrace false scores).Chain' (fun a b => XR.leB b a = true) ∧
    (∀ (sm : Bool) (b : XR) (s : ℚ), (is_best_epoch s b sm).2 ≠ b →
      (is_best_epoch s b sm).1 = true ∧ (is_best_epoch s b sm).2 = .fin s) := by
  refine ⟨chain'_scanl _ _ bestStep_le_max scores _,
          chain'_scanl _ _ bestStep_le_min scores _, ?_⟩
  intro sm b s hne
  unfold is_best_epoch at *
  cases sm <;> [cases h : XR.leB (.fin s) b; cases h : XR.leB b (.fin s)] <;>
    simp [h] at hne ⊢

end Trainer
